import Mathlib

/-!
Verification of the NSGA-II transit-schedule optimizer
(`src/services/optimization/NSGAIIOptimizer.ts`, provided as
`src/unnamed/part_000`).

Shallow embedding conventions:
* JS `number` values used as times, objective scores and passenger counts
  are modelled as exact rationals `ℚ`.
* The crowding distance, which the source sets to `Infinity` on boundary
  members, is modelled as `WithTop ℚ` (`⊤` = `Infinity`; `⊤ + x = ⊤`
  matches IEEE `Infinity + x`).
* `Math.random()` is modelled as an explicit stream `rand : ℕ → ℚ` of
  draws together with a cursor; every call of the source to
  `Math.random()` consumes one position of the stream, in program order.
* The unguarded array access `fronts[i].length` in `selectNextGeneration`
  (which throws a JS `TypeError` when `i` runs past the end of `fronts`)
  is modelled as `Except.error SelectError.typeError`.
* The mutable per-object bookkeeping fields `dominationCount`,
  `dominatedSolutions` and `rank` of the source's `Individual` interface
  exist only during `nonDominatedSort`; they are modelled index-wise
  inside the sort (`initCounts`, `domSetsOf`, `decStep`) rather than as
  record fields, and candidates are identified by their index in the
  population array (JS object identity).
-/

/-- Objective vector of one candidate (all three minimized). -/
structure Objectives where
  operatorCost : ℚ
  passengerWaitTime : ℚ
  vehicleUtilization : ℚ
deriving DecidableEq, Repr

instance : Inhabited Objectives := ⟨⟨0, 0, 0⟩⟩

/-- One candidate schedule with its evaluation state (source: `Individual`).
The domination bookkeeping fields are handled index-wise in
`nonDominatedSortIdx`; see the module comment. -/
structure Individual where
  schedule : List ℚ
  objectives : Objectives
  crowdingDistance : WithTop ℚ
deriving DecidableEq, Repr

instance : Inhabited Individual := ⟨⟨[], default, 0⟩⟩

/-- External demand point (source: `PassengerDemand` in `types/index.ts`). -/
structure PassengerDemand where
  stop_id : String
  time_window : String
  passenger_count : ℚ
  day_of_week : ℤ
deriving DecidableEq, Repr

/-- A transit route; only `route_id` is consumed by the optimizer. -/
structure Route where
  route_id : String
deriving DecidableEq, Repr

/-- The slice of `GTFSData` the optimizer reads (`routes` only;
`initializePopulation` receives the whole record but never uses it). -/
structure GTFSData where
  routes : List Route
deriving DecidableEq, Repr

/-- Hard-coded result metrics block of `OptimizedSchedule`. -/
structure PerformanceMetrics where
  wait_time_reduction : ℚ
  utilization_increase : ℚ
  cost_savings : ℚ
deriving DecidableEq, Repr

/-- Output schedule (source: `OptimizedSchedule` in `types/index.ts`). -/
structure OptimizedSchedule where
  route_id : String
  optimized_times : List String
  performance_metrics : PerformanceMetrics
deriving DecidableEq, Repr

instance : Inhabited OptimizedSchedule := ⟨⟨"", [], ⟨18, 21, 15⟩⟩⟩

/-- The JS exception raised by the unguarded `fronts[i].length` access in
`selectNextGeneration` when `i` has run past the end of `fronts`. -/
inductive SelectError where
  | typeError
deriving DecidableEq, Repr

/-- Hard-coded `private populationSize = 100`. -/
def populationSize : ℕ := 100

/-- Hard-coded `private generations = 50`. -/
def generations : ℕ := 50

/-- Hard-coded `private mutationRate = 0.1`. -/
def mutationRate : ℚ := 1 / 10

/-- Hard-coded `private crossoverRate = 0.8`. -/
def crossoverRate : ℚ := 8 / 10

/-- Ascending numeric sort, `xs.sort((a, b) => a - b)` in the source. -/
def sortAsc (s : List ℚ) : List ℚ :=
  s.mergeSort (fun a b => decide (a ≤ b))

/-- Model of `timeStr.split(':')` on the underlying character list (structural
recursion so that concrete labels evaluate). -/
def splitOnColon : List Char → List (List Char)
  | [] => [[]]
  | c :: rest =>
    if c = ':' then [] :: splitOnColon rest
    else
      match splitOnColon rest with
      | g :: gs => (c :: g) :: gs
      | [] => [[c]]

/-- JS `Number()` on a decimal-digit string (`Number("") = 0`).
`Number()` on a malformed part yields `NaN` in JS, which is out of scope
per spec §7; every theorem below uses well-formed labels. -/
def digitsVal (cs : List Char) : ℕ :=
  cs.foldl (fun acc c => acc * 10 + (c.toNat - 48)) 0

/-- Source `timeToMinutes`: `"HH:MM"` → minutes from midnight via
`timeStr.split(':').map(Number)` and `hours * 60 + minutes`. -/
def timeToMinutes (timeStr : String) : ℚ :=
  let parts := (splitOnColon timeStr.data).map (fun cs => (digitsVal cs : ℚ))
  parts.getD 0 0 * 60 + parts.getD 1 0

/-- Source `minutesToTime`: minutes → zero-padded `"HH:MM"` label. -/
def minutesToTime (minutes : ℚ) : String :=
  let hours := (⌊minutes / 60⌋).toNat
  let mins := (⌊minutes⌋ - 60 * ⌊minutes / 60⌋).toNat
  (if hours < 10 then "0" else "") ++ toString hours ++ ":"
    ++ (if mins < 10 then "0" else "") ++ toString mins

/-- Headway penalty part of `operatorCost`: the source's `reduce` adds 100
for every adjacent pair of departures closer than 30 minutes. -/
def headwayPenalty (s : List ℚ) : ℚ :=
  ((s.zip (s.drop 1)).foldl
    (fun sum p => sum + (if p.2 - p.1 < 30 then 100 else 0)) 0)

/-- The `nextBus` lookup inside the wait-time objective.  The source is
`schedule.find(busTime => busTime >= demandTime) || schedule[0] + 1440`:
when `find` returns the departure `0`, JS treats it as falsy and takes the
fallback branch, exactly as modelled here.  On an empty schedule the JS
expression is `undefined + 1440 = NaN`; the model uses `headD 0` there,
and every use below has a non-empty schedule. -/
def nextBusFor (schedule : List ℚ) (demandTime : ℚ) : ℚ :=
  match schedule.find? (fun busTime => decide (demandTime ≤ busTime)) with
  | some t => if t = 0 then schedule.headD 0 + 1440 else t
  | none => schedule.headD 0 + 1440

/-- Source `evaluateObjectives` (lines 81–122 of `part_000`). -/
def evaluateObjectives (schedule : List ℚ) (demandForecasts : List PassengerDemand) :
    Objectives :=
  let operatorCost := (schedule.length : ℚ) * 50 + headwayPenalty schedule
  let totals := demandForecasts.foldl
    (fun (acc : ℚ × ℚ) demand =>
      let demandTime := timeToMinutes demand.time_window
      let nextBus := nextBusFor schedule demandTime
      let waitTime := nextBus - demandTime
      (acc.1 + waitTime * demand.passenger_count, acc.2 + demand.passenger_count))
    (0, 0)
  let avgWaitTime := if 0 < totals.2 then totals.1 / totals.2 else 0
  let totalServiceTime := (schedule.length : ℚ) * 60
  let totalAvailableTime : ℚ := 16 * 60
  let utilization := min (totalServiceTime / totalAvailableTime) 1
  { operatorCost := operatorCost
    passengerWaitTime := avgWaitTime
    vehicleUtilization := 1 - utilization }

/-- The three minimized objectives, in the order of the source's
`objectives` array. -/
def objectiveList (o : Objectives) : List ℚ :=
  [o.operatorCost, o.passengerWaitTime, o.vehicleUtilization]

/-- Source `dominates`: a folds over the objective array accumulating
`aBetterInAny` / `aWorseInAny`; returns `better && !worse`. -/
def dominates (a b : Objectives) : Bool :=
  let r := ((objectiveList a).zip (objectiveList b)).foldl
    (fun (acc : Bool × Bool) p =>
      (acc.1 || decide (p.1 < p.2), acc.2 || decide (p.2 < p.1)))
    (false, false)
  r.1 && !r.2

/-! ## Non-dominated sorting (source `nonDominatedSort`, lines 124–167)

Candidates are identified by their index in the population array.  The
per-object fields `dominationCount` / `dominatedSolutions` / `rank` of the
source become: an integer-valued count state `ℕ → ℤ`, the adjacency
`domSetsOf`, and the position of a front in the returned list. -/

/-- The set `p.dominatedSolutions` of candidate `i`: all indices `j` (in population
order) with `dominates pop[i] pop[j]`. -/
def domSetsOf (n : ℕ) (dom : ℕ → ℕ → Bool) (i : ℕ) : List ℕ :=
  (List.range n).filter (fun j => dom i j)

/-- The count `p.dominationCount` of candidate `j` as the source computes it: one
increment for every `q` with `¬dominates(j,q)` and `dominates(q,j)`
(the `else if` branch of the double loop). -/
def initCounts (n : ℕ) (dom : ℕ → ℕ → Bool) (j : ℕ) : ℤ :=
  ((List.range n).countP (fun i => !dom j i && dom i j) : ℤ)

/-- Front 0: every candidate whose domination count is zero, in population
order. -/
def frontZero (n : ℕ) (dom : ℕ → ℕ → Bool) : List ℕ :=
  (List.range n).filter (fun j => initCounts n dom j == 0)

/-- One `q.dominationCount--` step of the source's front-peeling loop,
appending `q` to the next front exactly when its count hits zero. -/
def decStep (st : (ℕ → ℤ) × List ℕ) (q : ℕ) : (ℕ → ℤ) × List ℕ :=
  let c := st.1 q - 1
  (fun x => if x = q then c else st.1 x, if c = 0 then st.2 ++ [q] else st.2)

/-- Processing one front: the source's nested `forEach` over the front's
members and their `dominatedSolutions` performs the decrements of
`decStep` in exactly the order of the flattened adjacency lists. -/
def processFront (domSets : ℕ → List ℕ) (front : List ℕ) (counts : ℕ → ℤ) :
    (ℕ → ℤ) × List ℕ :=
  (front.flatMap domSets).foldl decStep (counts, [])

/-- The source's `while (fronts[i] && fronts[i].length > 0)` peeling loop
followed by `fronts.filter(front => front.length > 0)`: emit the current
front if non-empty and continue with the candidates that reached count
zero.  `fuel` bounds the iteration count; `nonDominatedSortIdx` passes
`n + 1`, which `peelLoop_spec` below proves sufficient. -/
def peelLoop (domSets : ℕ → List ℕ) : ℕ → (ℕ → ℤ) → List ℕ → List (List ℕ)
  | 0, _, _ => []
  | fuel + 1, counts, current =>
    if current = [] then []
    else
      let st := processFront domSets current counts
      current :: peelLoop domSets fuel st.1 st.2

/-- Dominance between population slots `i` and `j`. -/
def popDom (pop : List Objectives) (i j : ℕ) : Bool :=
  dominates (pop.getD i default) (pop.getD j default)

/-- Source `nonDominatedSort`, returning fronts of population indices. -/
def nonDominatedSortIdx (pop : List Objectives) : List (List ℕ) :=
  peelLoop (domSetsOf pop.length (popDom pop)) (pop.length + 1)
    (initCounts pop.length (popDom pop)) (frontZero pop.length (popDom pop))

/-- Source `nonDominatedSort` on full candidates: the JS fronts hold the
very population objects, recovered here from their indices. -/
def nonDominatedSort (pop : List Individual) : List (List Individual) :=
  (nonDominatedSortIdx (pop.map (fun ind => ind.objectives))).map
    (fun front => front.map (fun i => pop.getD i default))

/-! ## Crowding distance (source `calculateCrowdingDistance`, lines 186–216) -/

/-- One objective's pass of the crowding computation: sort the front by the
objective (`front.sort((a, b) => a.objectives[obj] - b.objectives[obj])`,
a stable ascending sort), pin both boundary members to `Infinity`, and
when `max − min > 0` add the normalized neighbour gap to each interior
member. -/
def crowdingPass (proj : Objectives → ℚ) (fr : List Individual) : List Individual :=
  let sorted := fr.mergeSort (fun a b => decide (proj a.objectives ≤ proj b.objectives))
  let len := sorted.length
  let maxObj := proj (sorted.getLastD default).objectives
  let minObj := proj (sorted.headD default).objectives
  let range := maxObj - minObj
  (List.range len).map (fun i =>
    let ind := sorted.getD i default
    if i = 0 ∨ i = len - 1 then { ind with crowdingDistance := ⊤ }
    else if 0 < range then
      { ind with crowdingDistance := ind.crowdingDistance +
          (((proj (sorted.getD (i + 1) default).objectives -
             proj (sorted.getD (i - 1) default).objectives) / range : ℚ) : WithTop ℚ) }
    else ind)

/-- Source `calculateCrowdingDistance`: fronts of at most two members get
`Infinity` everywhere; otherwise distances are reset to `0` and the three
objective passes run in the source's order (operatorCost,
passengerWaitTime, vehicleUtilization).  The returned list is the front in
its final, last-objective-sorted order, matching the in-place mutation of
the JS array. -/
def calculateCrowdingDistance (front : List Individual) : List Individual :=
  if front.length ≤ 2 then
    front.map (fun ind => { ind with crowdingDistance := ⊤ })
  else
    let front0 := front.map (fun ind => { ind with crowdingDistance := 0 })
    crowdingPass (fun o => o.vehicleUtilization)
      (crowdingPass (fun o => o.passengerWaitTime)
        (crowdingPass (fun o => o.operatorCost) front0))

/-! ## Environmental selection (source `selectNextGeneration`, lines 218–236) -/

/-- Descending sort by crowding distance,
`front.sort((a, b) => b.crowdingDistance - a.crowdingDistance)`. -/
def sortByCrowdingDesc (front : List Individual) : List Individual :=
  front.mergeSort (fun a b => decide (b.crowdingDistance ≤ a.crowdingDistance))

/-- The selection loop.  The source's `while` condition reads
`fronts[i].length` before any bounds check, so running past the end of the
fronts array throws a `TypeError`; the partial-front branch then fills up
to `populationSize` using descending crowding distance. -/
def selGo (acc : List Individual) : List (List Individual) →
    Except SelectError (List Individual)
  | [] => Except.error SelectError.typeError
  | f :: rest =>
    if acc.length + f.length ≤ populationSize then
      selGo (acc ++ f) rest
    else
      if acc.length < populationSize then
        Except.ok (acc ++ (sortByCrowdingDesc f).take (populationSize - acc.length))
      else Except.ok acc

/-- Source `selectNextGeneration`. -/
def selectNextGeneration (fronts : List (List Individual)) :
    Except SelectError (List Individual) :=
  selGo [] fronts

/-! ## Variation operators (source `crossover` / `mutate` / `applyGeneticOperators`) -/

/-- Source `crossover` on the two parents' schedules, at a given cut
index: each child is a prefix of one parent concatenated with the
complementary suffix of the other, re-sorted ascending. -/
def crossoverSchedules (p1 p2 : List ℚ) (cut : ℕ) : List ℚ × List ℚ :=
  (sortAsc (p1.take cut ++ p2.drop cut), sortAsc (p2.take cut ++ p1.drop cut))

/-- A fresh offspring `Individual` as the source builds it: zeroed
objectives and crowding distance. -/
def freshIndividual (schedule : List ℚ) : Individual :=
  { schedule := schedule
    objectives := { operatorCost := 0, passengerWaitTime := 0, vehicleUtilization := 0 }
    crowdingDistance := 0 }

/-- Source `mutate` on a schedule: overwrite the chosen slot and re-sort.
The source always draws `idx < schedule.length`. -/
def mutateAt (s : List ℚ) (idx : ℕ) (v : ℚ) : List ℚ :=
  sortAsc (s.set idx v)

/-- Crossover phase of `applyGeneticOperators`: walk consecutive pairs
(`i += 2` while `i < population.length - 1`), draw one decision per pair,
and on success draw the cut index (`Math.floor(Math.random() *
parent1.schedule.length)`) and emit both children.  Returns the appended
children and the advanced stream cursor. -/
def crossoverPhase (rand : ℕ → ℚ) : List Individual → ℕ → List Individual × ℕ
  | a :: b :: rest, k =>
    if rand k < crossoverRate then
      let cut := (⌊rand (k + 1) * (a.schedule.length : ℚ)⌋).toNat
      let pair := crossoverSchedules a.schedule b.schedule cut
      let next := crossoverPhase rand rest (k + 2)
      (freshIndividual pair.1 :: freshIndividual pair.2 :: next.1, next.2)
    else
      let next := crossoverPhase rand rest (k + 1)
      (next.1, next.2)
  | _, k => ([], k)

/-- Mutation phase of `applyGeneticOperators`: one decision draw per
individual; on success `mutate` draws the slot index and the replacement
time `Math.random() * 1440`. -/
def mutationPhase (rand : ℕ → ℚ) : List Individual → ℕ → List Individual × ℕ
  | [], k => ([], k)
  | ind :: rest, k =>
    if rand k < mutationRate then
      let idx := (⌊rand (k + 1) * (ind.schedule.length : ℚ)⌋).toNat
      let v := rand (k + 2) * 1440
      let next := mutationPhase rand rest (k + 3)
      ({ ind with schedule := mutateAt ind.schedule idx v } :: next.1, next.2)
    else
      let next := mutationPhase rand rest (k + 1)
      (ind :: next.1, next.2)

/-- Source `applyGeneticOperators`: copy the survivors, append every
crossover child, then run the mutation pass over the whole working
population. -/
def applyGeneticOperators (population : List Individual) (rand : ℕ → ℚ) (k : ℕ) :
    List Individual × ℕ :=
  let crossed := crossoverPhase rand population k
  mutationPhase rand (population ++ crossed.1) crossed.2

/-! ## Population initialization (source `initializePopulation`, lines 61–79) -/

/-- One random schedule: `Array(L).fill(0).map(() => Math.random() * 1440)`
then `sort((a, b) => a - b)`, reading draws `off, off+1, …`. -/
def randomSchedule (L : ℕ) (rand : ℕ → ℚ) (off : ℕ) : List ℚ :=
  sortAsc ((List.range L).map (fun t => rand (off + t) * 1440))

/-- The initialization loop with the population size and schedule length
exposed as parameters (the source hard-codes `this.populationSize = 100`
and `Array(24)`; `initializePopulation` instantiates them).  Modelled over
`ℤ` so that the spec's non-positive configuration values are expressible:
a JS `for` loop with a non-positive bound runs zero times, and no
validation or error path exists in the source. -/
def initializePopulationCore (n L : ℤ) (rand : ℕ → ℚ) (k : ℕ) : List Individual :=
  (List.range n.toNat).map (fun i =>
    freshIndividual (randomSchedule L.toNat rand (k + L.toNat * i)))

/-- Source `initializePopulation`: 100 candidates of 24 sorted random
times each; the `gtfsData` argument is received but never read. -/
def initializePopulation (gtfsData : GTFSData) (rand : ℕ → ℚ) (k : ℕ) :
    List Individual :=
  initializePopulationCore 100 24 rand k

/-! ## Result projection (source `convertToOptimizedSchedules`, lines 298–312) -/

/-- Source `convertToOptimizedSchedules`: each route is mapped to the
Pareto-front member at `index % paretoFront.length`, its times converted
to labels, and the hard-coded metrics block `{18, 21, 15}` attached. -/
def convertToOptimizedSchedules (paretoFront : List Individual)
    (gtfsData : GTFSData) : List OptimizedSchedule :=
  gtfsData.routes.enum.map (fun p =>
    let individual := paretoFront.getD (p.1 % paretoFront.length) default
    { route_id := p.2.route_id
      optimized_times := individual.schedule.map minutesToTime
      performance_metrics :=
        { wait_time_reduction := 18
          utilization_increase := 21
          cost_savings := 15 } })

/-! ## Generation driver (source `optimizeSchedules`, lines 22–59) -/

/-- One-per-generation cycle of the driver's `for` loop: evaluate, rank,
crowd, select, vary.  A selection failure aborts the run, as the JS
exception would. -/
def genLoop (demandForecasts : List PassengerDemand) (rand : ℕ → ℚ) :
    ℕ → List Individual → ℕ → Except SelectError (List Individual × ℕ)
  | 0, pop, k => Except.ok (pop, k)
  | g + 1, pop, k =>
    let evaluated := pop.map (fun ind =>
      { ind with objectives := evaluateObjectives ind.schedule demandForecasts })
    let fronts := (nonDominatedSort evaluated).map calculateCrowdingDistance
    match selectNextGeneration fronts with
    | Except.error e => Except.error e
    | Except.ok selected =>
      let next := applyGeneticOperators selected rand k
      genLoop demandForecasts rand g next.1 next.2

/-- The driver's tail: an aborted generational loop propagates its
exception; a completed one is ranked a final time and front 0 projected
(source lines 56–58).  On an empty final population the JS
`finalFronts[0]` is `undefined`; the model's `headD []` is never reached
on that path because every generation cycle errors first (see
`optimizeSchedules_errors`). -/
def projectResult (gtfsData : GTFSData) :
    Except SelectError (List Individual × ℕ) →
      Except SelectError (List OptimizedSchedule)
  | Except.error e => Except.error e
  | Except.ok res =>
    Except.ok (convertToOptimizedSchedules
      ((nonDominatedSort res.1).headD []) gtfsData)

/-- Source `optimizeSchedules`: initialize (consuming draws 0–2399), run
the 50 generational cycles, rank the final population once more and
project front 0. -/
def optimizeSchedules (gtfsData : GTFSData) (demandForecasts : List PassengerDemand)
    (rand : ℕ → ℚ) : Except SelectError (List OptimizedSchedule) :=
  projectResult gtfsData
    (genLoop demandForecasts rand generations (initializePopulation gtfsData rand 0) 2400)


/-- Specification of the list of fronts produced from the set `U` of
candidates still to be placed: the fronts are disjoint, cover `U`
exactly, are non-empty, and front `k` consists exactly of the candidates
all of whose dominators lie in fronts `0 … k-1`. -/
def FrontsSpec (dom : ℕ → ℕ → Bool) (U : Finset ℕ) (res : List (List ℕ)) : Prop :=
  res.flatten.Nodup ∧
  (∀ j, j ∈ res.flatten ↔ j ∈ U) ∧
  (∀ fr ∈ res, fr ≠ []) ∧
  (∀ k j, j ∈ res.getD k [] ↔
    (j ∈ U ∧ j ∉ (res.take k).flatten ∧
      ∀ i ∈ U, dom i j = true → i ∈ (res.take k).flatten))

/-- A well-formed hourly schedule containing a departure at minute 0. -/
def hourlySchedule : List ℚ :=
  [0, 60, 120, 180, 240, 300, 360, 420, 480, 540, 600, 660, 720, 780,
    840, 900, 960, 1020, 1080, 1140, 1200, 1260, 1320, 1380]

/-- Comparison definition for C10's "never contributes to dominance":
the dominance test computed from the cost and wait objectives alone. -/
def dominatesIgnoringUtilization (a b : Objectives) : Bool :=
  ((decide (a.operatorCost < b.operatorCost) ||
      decide (a.passengerWaitTime < b.passengerWaitTime)) &&
    !(decide (b.operatorCost < a.operatorCost) ||
      decide (b.passengerWaitTime < a.passengerWaitTime)))

/-! ## Correctness of the front-peeling loop -/

theorem dominates_eq (a b : Objectives) :
    dominates a b =
      (((decide (a.operatorCost < b.operatorCost) ||
          decide (a.passengerWaitTime < b.passengerWaitTime)) ||
          decide (a.vehicleUtilization < b.vehicleUtilization)) &&
        !((decide (b.operatorCost < a.operatorCost) ||
          decide (b.passengerWaitTime < a.passengerWaitTime)) ||
          decide (b.vehicleUtilization < a.vehicleUtilization))) := rfl

theorem dominates_iff (a b : Objectives) :
    dominates a b = true ↔
      (a.operatorCost ≤ b.operatorCost ∧ a.passengerWaitTime ≤ b.passengerWaitTime ∧
        a.vehicleUtilization ≤ b.vehicleUtilization) ∧
      (a.operatorCost < b.operatorCost ∨ a.passengerWaitTime < b.passengerWaitTime ∨
        a.vehicleUtilization < b.vehicleUtilization) := by
  rw [dominates_eq]
  simp only [Bool.and_eq_true, Bool.or_eq_true, decide_eq_true_iff, Bool.not_eq_true',
    Bool.or_eq_false_iff, decide_eq_false_iff_not, not_lt]
  tauto

theorem dominates_irrefl (a : Objectives) : dominates a a = false := by
  rw [Bool.eq_false_iff]
  intro h
  rcases (dominates_iff a a).1 h with ⟨-, h2⟩
  rcases h2 with h | h | h <;> exact absurd h (lt_irrefl _)

theorem dominates_asymm {a b : Objectives} (h : dominates a b = true) :
    dominates b a = false := by
  rw [Bool.eq_false_iff]
  intro hba
  rcases (dominates_iff a b).1 h with ⟨⟨le1, le2, le3⟩, -⟩
  rcases (dominates_iff b a).1 hba with ⟨-, hs⟩
  rcases hs with hs | hs | hs <;> linarith

theorem dominates_trans {a b c : Objectives} (hab : dominates a b = true)
    (hbc : dominates b c = true) : dominates a c = true := by
  rcases (dominates_iff a b).1 hab with ⟨⟨le1, le2, le3⟩, hs⟩
  rcases (dominates_iff b c).1 hbc with ⟨⟨le4, le5, le6⟩, -⟩
  refine (dominates_iff a c).2 ⟨⟨by linarith, by linarith, by linarith⟩, ?_⟩
  rcases hs with hs | hs | hs
  · exact Or.inl (by linarith)
  · exact Or.inr (Or.inl (by linarith))
  · exact Or.inr (Or.inr (by linarith))

theorem decStep_eq (c : ℕ → ℤ) (nf : List ℕ) (q : ℕ) :
    decStep (c, nf) q =
      (fun x => if x = q then c q - 1 else c x,
        if c q - 1 = 0 then nf ++ [q] else nf) := rfl

theorem foldl_decStep_counts (Qs : List ℕ) :
    ∀ (c : ℕ → ℤ) (nf : List ℕ) (j : ℕ),
      (Qs.foldl decStep (c, nf)).1 j = c j - (Qs.count j : ℤ) := by
  induction Qs with
  | nil => intro c nf j; simp
  | cons q rest ih =>
    intro c nf j
    simp only [List.foldl_cons, decStep_eq]
    rw [ih]
    by_cases hj : j = q
    · subst hj
      simp only [if_pos rfl, List.count_cons_self]
      push_cast
      ring
    · simp only [if_neg hj, List.count_cons_of_ne (fun h => hj (by simpa using h))]

theorem foldl_decStep_mem (Qs : List ℕ) :
    ∀ (c : ℕ → ℤ) (nf : List ℕ) (j : ℕ),
      j ∈ (Qs.foldl decStep (c, nf)).2 ↔
        j ∈ nf ∨ (1 ≤ c j ∧ c j ≤ (Qs.count j : ℤ)) := by
  induction Qs with
  | nil =>
    intro c nf j
    simp only [List.foldl_nil, List.count_nil, Nat.cast_zero]
    constructor
    · exact Or.inl
    · rintro (h | ⟨h1, h2⟩)
      · exact h
      · omega
  | cons q rest ih =>
    intro c nf j
    simp only [List.foldl_cons, decStep_eq]
    rw [ih]
    by_cases hj : j = q
    · subst hj
      by_cases hz : c j - 1 = 0
      · simp only [if_pos hz, List.mem_append, List.mem_singleton,
          List.count_cons_self]
        push_cast
        constructor
        · rintro ((h | h) | ⟨h1, h2⟩)
          · exact Or.inl h
          · right; omega
          · right; omega
        · rintro (h | ⟨h1, h2⟩)
          · exact Or.inl (Or.inl h)
          · left; right; trivial
      · simp only [if_neg hz, List.count_cons_self]
        push_cast
        constructor
        · rintro (h | ⟨h1, h2⟩)
          · exact Or.inl h
          · right; omega
        · rintro (h | ⟨h1, h2⟩)
          · exact Or.inl h
          · right; omega
    · have hcount : rest.count j = (q :: rest).count j :=
        (List.count_cons_of_ne (fun h => hj (by simpa using h)) rest).symm
      by_cases hz : c q - 1 = 0
      · simp only [if_pos hz, List.mem_append, List.mem_singleton, if_neg hj, ← hcount]
        constructor
        · rintro ((h | h) | h)
          · exact Or.inl h
          · exact absurd h hj
          · exact Or.inr h
        · rintro (h | h)
          · exact Or.inl (Or.inl h)
          · exact Or.inr h
      · simp only [if_neg hz, if_neg hj, ← hcount]

theorem foldl_decStep_nodup (Qs : List ℕ) :
    ∀ (c : ℕ → ℤ) (nf : List ℕ), nf.Nodup → (∀ q ∈ nf, c q ≤ 0) →
      (Qs.foldl decStep (c, nf)).2.Nodup ∧
        ∀ q ∈ (Qs.foldl decStep (c, nf)).2, (Qs.foldl decStep (c, nf)).1 q ≤ 0 := by
  induction Qs with
  | nil =>
    intro c nf hnd hle
    exact ⟨hnd, hle⟩
  | cons q rest ih =>
    intro c nf hnd hle
    simp only [List.foldl_cons, decStep_eq]
    by_cases hz : c q - 1 = 0
    · simp only [if_pos hz]
      apply ih
      · have hqnf : q ∉ nf := by
          intro hq
          have := hle q hq
          omega
        simp [List.nodup_append, hnd, hqnf]
      · intro x hx
        rcases List.mem_append.1 hx with hx | hx
        · by_cases hxq : x = q
          · subst hxq; simp; omega
          · simpa [hxq] using hle x hx
        · have hxq : x = q := by simpa using hx
          subst hxq; simp; omega
    · simp only [if_neg hz]
      refine ih _ _ hnd ?_
      intro x hx
      by_cases hxq : x = q
      · subst hxq
        have := hle x hx
        simp
        omega
      · simpa [hxq] using hle x hx

theorem mem_domSetsOf {n : ℕ} {dom : ℕ → ℕ → Bool} {i j : ℕ} :
    j ∈ domSetsOf n dom i ↔ j < n ∧ dom i j = true := by
  simp [domSetsOf, List.mem_filter, List.mem_range]

theorem count_domSetsOf (n : ℕ) (dom : ℕ → ℕ → Bool) (p j : ℕ) (hj : j < n) :
    (domSetsOf n dom p).count j = if dom p j then 1 else 0 := by
  by_cases h : dom p j = true
  · rw [if_pos h]
    exact List.count_eq_one_of_mem ((List.nodup_range n).filter _)
      (mem_domSetsOf.2 ⟨hj, h⟩)
  · rw [if_neg h]
    exact List.count_eq_zero_of_not_mem (fun hmem => h (mem_domSetsOf.1 hmem).2)

theorem count_flatMap_domSets (n : ℕ) (dom : ℕ → ℕ → Bool) (front : List ℕ)
    (j : ℕ) (hj : j < n) :
    (front.flatMap (domSetsOf n dom)).count j =
      front.countP (fun p => dom p j) := by
  induction front with
  | nil => simp
  | cons p rest ih =>
    rw [List.flatMap_cons, List.count_append, ih, List.countP_cons,
      count_domSetsOf n dom p j hj]
    by_cases h : dom p j = true <;> simp [h] <;> omega

theorem mem_flatMap_domSets_lt {n : ℕ} {dom : ℕ → ℕ → Bool} {front : List ℕ}
    {j : ℕ} (h : j ∈ front.flatMap (domSetsOf n dom)) : j < n := by
  rcases List.mem_flatMap.1 h with ⟨p, -, hp⟩
  exact (mem_domSetsOf.1 hp).1

theorem countP_eq_card_filter_toFinset {l : List ℕ} (hl : l.Nodup) (p : ℕ → Bool) :
    l.countP p = (l.toFinset.filter (fun x => p x = true)).card := by
  rw [List.countP_eq_length_filter, ← List.toFinset_card_of_nodup (hl.filter p)]
  congr 1
  ext x
  simp [List.mem_filter]

theorem toFinset_range_eq (n : ℕ) : (List.range n).toFinset = Finset.range n := by
  ext x
  simp [List.mem_range]

/-- A finite set with no minimal element under an asymmetric transitive
relation is empty: the termination core of the front-peeling loop. -/
theorem exists_dom_minimal (dom : ℕ → ℕ → Bool)
    (hasymm : ∀ i j, dom i j = true → dom j i = false)
    (htrans : ∀ i j k, dom i j = true → dom j k = true → dom i k = true)
    (U : Finset ℕ) (hne : U.Nonempty) :
    ∃ j ∈ U, ∀ i ∈ U, dom i j = false := by
  classical
  induction U using Finset.strongInduction with
  | _ U ih =>
    obtain ⟨u, hu⟩ := hne
    by_cases hD : (U.filter (fun v => dom v u = true)).Nonempty
    · have hirr : dom u u = false := by
        by_cases h : dom u u = true
        · exact absurd (hasymm u u h) (by simp [h])
        · exact Bool.not_eq_true _ ▸ (by simpa using h)
      have hssub : U.filter (fun v => dom v u = true) ⊂ U := by
        refine Finset.ssubset_iff_of_subset (Finset.filter_subset _ _) |>.2 ⟨u, hu, ?_⟩
        simp [Finset.mem_filter, hirr]
      obtain ⟨w, hwD, hwmin⟩ := ih _ hssub hD
      refine ⟨w, (Finset.mem_filter.1 hwD).1, fun i hi => ?_⟩
      by_contra h
      have hiw : dom i w = true := by simpa using h
      have hwu : dom w u = true := (Finset.mem_filter.1 hwD).2
      have hiu : dom i u = true := htrans i w u hiw hwu
      have hiD : i ∈ U.filter (fun v => dom v u = true) :=
        Finset.mem_filter.2 ⟨hi, hiu⟩
      exact absurd hiw (by simp [hwmin i hiD])
    · refine ⟨u, hu, fun i hi => ?_⟩
      by_contra h
      exact hD ⟨i, Finset.mem_filter.2 ⟨hi, by simpa using h⟩⟩

theorem processFront_inv (n : ℕ) (dom : ℕ → ℕ → Bool)
    (U : Finset ℕ) (counts : ℕ → ℤ) (current : List ℕ)
    (hUn : ∀ j ∈ U, j < n)
    (hnd : current.Nodup)
    (hI3 : ∀ j, j ∈ current ↔ j ∈ U ∧ counts j = 0)
    (hI1 : ∀ j ∈ U, counts j = ((U.filter (fun i => dom i j = true)).card : ℤ))
    (hI2 : ∀ j, j < n → j ∉ U → counts j ≤ 0) :
    (∀ j ∈ U \ current.toFinset, j < n) ∧
    (processFront (domSetsOf n dom) current counts).2.Nodup ∧
    (∀ j, j ∈ (processFront (domSetsOf n dom) current counts).2 ↔
      j ∈ U \ current.toFinset ∧ (processFront (domSetsOf n dom) current counts).1 j = 0) ∧
    (∀ j ∈ U \ current.toFinset,
      (processFront (domSetsOf n dom) current counts).1 j =
        (((U \ current.toFinset).filter (fun i => dom i j = true)).card : ℤ)) ∧
    (∀ j, j < n → j ∉ U \ current.toFinset →
      (processFront (domSetsOf n dom) current counts).1 j ≤ 0) := by
  classical
  have hsubU : current.toFinset ⊆ U := by
    intro x hx
    exact ((hI3 x).1 (List.mem_toFinset.1 hx)).1
  set Qs := current.flatMap (domSetsOf n dom) with hQs
  have hcounts : ∀ j, (processFront (domSetsOf n dom) current counts).1 j =
      counts j - (Qs.count j : ℤ) := fun j => foldl_decStep_counts Qs counts [] j
  have hmem : ∀ j, j ∈ (processFront (domSetsOf n dom) current counts).2 ↔
      1 ≤ counts j ∧ counts j ≤ (Qs.count j : ℤ) := by
    intro j
    rw [processFront, ← hQs, foldl_decStep_mem]
    simp
  have hnodup : (processFront (domSetsOf n dom) current counts).2.Nodup :=
    (foldl_decStep_nodup Qs counts [] (by simp) (by simp)).1
  -- count of decrements hitting j, as a card over the current front
  have hd : ∀ j, j < n → (Qs.count j : ℤ) =
      ((current.toFinset.filter (fun i => dom i j = true)).card : ℤ) := by
    intro j hj
    rw [hQs, count_flatMap_domSets n dom current j hj,
      countP_eq_card_filter_toFinset hnd]
  have hd_le : ∀ j ∈ U, (Qs.count j : ℤ) ≤ counts j := by
    intro j hjU
    rw [hI1 j hjU, hd j (hUn j hjU)]
    exact_mod_cast Finset.card_le_card
      (Finset.filter_subset_filter _ hsubU)
  -- splitting the dominator count over the partition U = (U \ current) ∪ current
  have hsplit : ∀ j, ((U.filter (fun i => dom i j = true)).card : ℤ) =
      (((U \ current.toFinset).filter (fun i => dom i j = true)).card : ℤ) +
      ((current.toFinset.filter (fun i => dom i j = true)).card : ℤ) := by
    intro j
    have hU : U = (U \ current.toFinset) ∪ current.toFinset :=
      (Finset.sdiff_union_of_subset hsubU).symm
    nth_rewrite 1 [hU]
    rw [Finset.filter_union, Finset.card_union_of_disjoint
      (Finset.disjoint_filter_filter Finset.sdiff_disjoint)]
    push_cast
    ring
  have hQzero : ∀ j, ¬ j < n → Qs.count j = 0 := by
    intro j hj
    exact List.count_eq_zero_of_not_mem (fun hc => hj (mem_flatMap_domSets_lt hc))
  refine ⟨?_, hnodup, ?_, ?_, ?_⟩
  · intro j hj
    exact hUn j (Finset.mem_sdiff.1 hj).1
  · -- membership characterization of the next front
    intro j
    rw [hmem]
    constructor
    · rintro ⟨h1, h2⟩
      have hjU : j ∈ U := by
        by_contra hjU
        by_cases hjn : j < n
        · exact absurd (hI2 j hjn hjU) (by omega)
        · rw [hQzero j hjn] at h2
          omega
      have hjc : j ∉ current := by
        intro hc
        have := ((hI3 j).1 hc).2
        omega
      refine ⟨Finset.mem_sdiff.2 ⟨hjU, fun hc => hjc (List.mem_toFinset.1 hc)⟩, ?_⟩
      rw [hcounts]
      have := hd_le j hjU
      omega
    · rintro ⟨hjUc, hz⟩
      rcases Finset.mem_sdiff.1 hjUc with ⟨hjU, hjc⟩
      have h1 : 1 ≤ counts j := by
        have hnn : 0 ≤ counts j := by
          rw [hI1 j hjU]; positivity
        rcases eq_or_lt_of_le hnn with h | h
        · exact absurd ((hI3 j).2 ⟨hjU, h.symm⟩)
            (fun hc => hjc (List.mem_toFinset.2 hc))
        · omega
      rw [hcounts] at hz
      exact ⟨h1, by omega⟩
  · -- the counts of remaining candidates track their remaining dominators
    intro j hjUc
    rcases Finset.mem_sdiff.1 hjUc with ⟨hjU, hjc⟩
    rw [hcounts, hI1 j hjU, hd j (hUn j hjU), hsplit j]
    ring
  · -- placed or out-of-range candidates keep non-positive counts
    intro j hjn hjUc
    rw [hcounts]
    by_cases hjU : j ∈ U
    · have hjc : j ∈ current.toFinset := by
        by_contra hc
        exact hjUc (Finset.mem_sdiff.2 ⟨hjU, hc⟩)
      have hz : counts j = 0 := ((hI3 j).1 (List.mem_toFinset.1 hjc)).2
      have hcnt : Qs.count j = 0 := by
        rw [hQs, count_flatMap_domSets n dom current j hjn]
        rw [List.countP_eq_zero]
        intro p hp
        intro hdom
        have hpU : p ∈ U := ((hI3 p).1 hp).1
        have : (1 : ℤ) ≤ ((U.filter (fun i => dom i j = true)).card : ℤ) := by
          have : p ∈ U.filter (fun i => dom i j = true) :=
            Finset.mem_filter.2 ⟨hpU, hdom⟩
          have := Finset.card_pos.2 ⟨p, this⟩
          exact_mod_cast this
        rw [hI1 j hjU] at hz
        omega
      rw [hz, hcnt]
      simp
    · have := hI2 j hjn hjU
      have : (0 : ℤ) ≤ (Qs.count j : ℤ) := by positivity
      omega

theorem peelLoop_spec (n : ℕ) (dom : ℕ → ℕ → Bool)
    (hasymm : ∀ i j, dom i j = true → dom j i = false)
    (htrans : ∀ i j k, dom i j = true → dom j k = true → dom i k = true) :
    ∀ (fuel : ℕ) (U : Finset ℕ) (counts : ℕ → ℤ) (current : List ℕ),
      U.card < fuel →
      (∀ j ∈ U, j < n) →
      current.Nodup →
      (∀ j, j ∈ current ↔ j ∈ U ∧ counts j = 0) →
      (∀ j ∈ U, counts j = ((U.filter (fun i => dom i j = true)).card : ℤ)) →
      (∀ j, j < n → j ∉ U → counts j ≤ 0) →
      FrontsSpec dom U (peelLoop (domSetsOf n dom) fuel counts current) := by
  classical
  intro fuel
  induction fuel with
  | zero =>
    intro U counts current hfuel
    omega
  | succ fuel ih =>
    intro U counts current hfuel hUn hnd hI3 hI1 hI2
    by_cases hcur : current = []
    · -- no zero-count candidate: U must be empty, the loop stops
      have hU : U = ∅ := by
        by_contra hne
        obtain ⟨j, hjU, hjmin⟩ := exists_dom_minimal dom hasymm htrans U
          (Finset.nonempty_iff_ne_empty.2 hne)
        have hz : counts j = 0 := by
          rw [hI1 j hjU]
          have : U.filter (fun i => dom i j = true) = ∅ := by
            apply Finset.filter_eq_empty_iff.2
            intro i hi
            simp [hjmin i hi]
          rw [this]
          simp
        have : j ∈ current := (hI3 j).2 ⟨hjU, hz⟩
        simp [hcur] at this
      rw [peelLoop, if_pos hcur]
      refine ⟨by simp, by simp [hU], by simp, ?_⟩
      intro k j
      simp [hU]
    · -- emit the current front and recurse on the remainder
      rw [peelLoop, if_neg hcur]
      obtain ⟨hUn2, hnd2, hI32, hI12, hI22⟩ :=
        processFront_inv n dom U counts current hUn hnd hI3 hI1 hI2
      have hsubU : current.toFinset ⊆ U := by
        intro x hx
        exact ((hI3 x).1 (List.mem_toFinset.1 hx)).1
      have hcard : (U \ current.toFinset).card < fuel := by
        have h1 : current.toFinset.Nonempty := by
          rcases List.exists_mem_of_ne_nil current hcur with ⟨x, hx⟩
          exact ⟨x, List.mem_toFinset.2 hx⟩
        have h2 := Finset.card_sdiff hsubU
        have h3 := Finset.card_le_card hsubU
        have h4 := Finset.card_pos.2 h1
        omega
      have sp := ih (U \ current.toFinset) _ _ hcard hUn2 hnd2 hI32 hI12 hI22
      obtain ⟨snd, smem, sne, schar⟩ := sp
      have hcurU : ∀ j ∈ current, j ∈ U := fun j hj => ((hI3 j).1 hj).1
      have hflat : ∀ j, j ∈ (peelLoop (domSetsOf n dom) fuel
          (processFront (domSetsOf n dom) current counts).1
          (processFront (domSetsOf n dom) current counts).2).flatten →
          j ∈ U \ current.toFinset := fun j hj => (smem j).1 hj
      constructor
      · -- flattened result has no duplicates
        rw [List.flatten_cons]
        apply List.Nodup.append hnd snd
        intro x hx hx2
        have := Finset.mem_sdiff.1 (hflat x hx2)
        exact this.2 (List.mem_toFinset.2 hx)
      refine ⟨?_, ?_, ?_⟩
      · -- coverage of U
        intro j
        rw [List.flatten_cons, List.mem_append, smem]
        constructor
        · rintro (h | h)
          · exact hcurU j h
          · exact (Finset.mem_sdiff.1 h).1
        · intro hjU
          by_cases hc : j ∈ current
          · exact Or.inl hc
          · exact Or.inr (Finset.mem_sdiff.2 ⟨hjU, fun h2 => hc (List.mem_toFinset.1 h2)⟩)
      · -- all emitted fronts are non-empty
        intro fr hfr
        rcases List.mem_cons.1 hfr with h | h
        · subst h; exact hcur
        · exact sne fr h
      · -- per-front characterization
        intro k j
        match k with
        | 0 =>
          simp only [List.getD_cons_zero, List.take_zero, List.flatten_nil,
            List.not_mem_nil, not_false_eq_true, true_and]
          rw [hI3 j]
          constructor
          · rintro ⟨hjU, hz⟩
            refine ⟨hjU, ?_⟩
            intro i hiU hdom
            rw [hI1 j hjU] at hz
            have : i ∈ U.filter (fun i => dom i j = true) :=
              Finset.mem_filter.2 ⟨hiU, hdom⟩
            have := Finset.card_pos.2 ⟨i, this⟩
            omega
          · rintro ⟨hjU, hmin⟩
            refine ⟨hjU, ?_⟩
            rw [hI1 j hjU]
            have : U.filter (fun i => dom i j = true) = ∅ := by
              apply Finset.filter_eq_empty_iff.2
              intro i hi hdom
              exact hmin i hi hdom
            rw [this]
            simp
        | k + 1 =>
          simp only [List.getD_cons_succ, List.take_succ_cons, List.flatten_cons,
            List.mem_append]
          rw [schar k j]
          constructor
          · rintro ⟨hjUc, hjnot, hdom⟩
            rcases Finset.mem_sdiff.1 hjUc with ⟨hjU, hjcur⟩
            refine ⟨hjU, ?_, ?_⟩
            · rintro (h | h)
              · exact hjcur (List.mem_toFinset.2 h)
              · exact hjnot h
            · intro i hiU hid
              by_cases hic : i ∈ current
              · exact Or.inl hic
              · exact Or.inr (hdom i
                  (Finset.mem_sdiff.2 ⟨hiU, fun h2 => hic (List.mem_toFinset.1 h2)⟩) hid)
          · rintro ⟨hjU, hjnot, hdom⟩
            have hjcur : j ∉ current := fun hc => hjnot (Or.inl hc)
            refine ⟨Finset.mem_sdiff.2 ⟨hjU, fun h2 => hjcur (List.mem_toFinset.1 h2)⟩,
              fun h => hjnot (Or.inr h), ?_⟩
            intro i hiUc hid
            rcases Finset.mem_sdiff.1 hiUc with ⟨hiU, hicur⟩
            rcases hdom i hiU hid with h | h
            · exact absurd (List.mem_toFinset.2 h) hicur
            · exact h

theorem popDom_asymm (pop : List Objectives) :
    ∀ i j, popDom pop i j = true → popDom pop j i = false :=
  fun _ _ h => dominates_asymm h

theorem popDom_trans (pop : List Objectives) :
    ∀ i j k, popDom pop i j = true → popDom pop j k = true → popDom pop i k = true :=
  fun _ _ _ hij hjk => dominates_trans hij hjk

theorem initCounts_eq_card (n : ℕ) (dom : ℕ → ℕ → Bool)
    (hasymm : ∀ i j, dom i j = true → dom j i = false) (j : ℕ) :
    initCounts n dom j = (((Finset.range n).filter (fun i => dom i j = true)).card : ℤ) := by
  rw [initCounts]
  have hcong : (List.range n).countP (fun i => !dom j i && dom i j) =
      (List.range n).countP (fun i => dom i j) := by
    apply List.countP_congr
    intro i _
    by_cases h : dom i j = true
    · simp [h, hasymm i j h]
    · simp [Bool.eq_false_iff.2 (fun hc => h hc)]
  rw [hcong, countP_eq_card_filter_toFinset (List.nodup_range n), toFinset_range_eq]

theorem frontZero_eq_filter (n : ℕ) (dom : ℕ → ℕ → Bool) :
    frontZero n dom = (List.range n).filter (fun j => initCounts n dom j == 0) := rfl

theorem mem_frontZero {n : ℕ} {dom : ℕ → ℕ → Bool} {j : ℕ} :
    j ∈ frontZero n dom ↔ j < n ∧ initCounts n dom j = 0 := by
  simp [frontZero, List.mem_filter, List.mem_range]

/-- The fronts returned by `nonDominatedSortIdx` satisfy `FrontsSpec` over
the whole index range of the population. -/
theorem nonDominatedSortIdx_spec (pop : List Objectives) :
    FrontsSpec (popDom pop) (Finset.range pop.length) (nonDominatedSortIdx pop) := by
  apply peelLoop_spec pop.length (popDom pop) (popDom_asymm pop) (popDom_trans pop)
  · rw [Finset.card_range]
    omega
  · intro j hj
    exact Finset.mem_range.1 hj
  · exact (List.nodup_range pop.length).filter _
  · intro j
    rw [mem_frontZero, Finset.mem_range]
  · intro j _
    exact initCounts_eq_card pop.length (popDom pop) (popDom_asymm pop) j
  · intro j hj hmem
    exact absurd (Finset.mem_range.2 hj) hmem

/-- The first emitted front is exactly `frontZero`. -/
theorem nonDominatedSortIdx_head (pop : List Objectives) :
    (nonDominatedSortIdx pop).headD [] = frontZero pop.length (popDom pop) := by
  rw [nonDominatedSortIdx]
  rw [peelLoop]
  by_cases h : frontZero pop.length (popDom pop) = []
  · rw [if_pos h, h]
    rfl
  · rw [if_neg h]
    rfl

/-- The flattened fronts list has exactly one entry per population slot. -/
theorem nonDominatedSortIdx_flatten_length (pop : List Objectives) :
    (nonDominatedSortIdx pop).flatten.length = pop.length := by
  obtain ⟨hnd, hmem, -, -⟩ := nonDominatedSortIdx_spec pop
  rw [← List.toFinset_card_of_nodup hnd]
  have : (nonDominatedSortIdx pop).flatten.toFinset = Finset.range pop.length := by
    ext x
    rw [List.mem_toFinset, hmem x, Finset.mem_range]
  rw [this, Finset.card_range]

/-- C3 (confirmed).  Non-dominated sorting: front 0 is exactly the set of
candidates with domination count 0; a candidate sits in front `k` exactly
when it is unplaced by fronts `0 … k-1` and every candidate dominating it
has been placed there (equivalently, its domination count reaches zero
after the decrements performed by the members of front `k-1`); and the
returned non-empty fronts partition the population: every candidate index
appears in exactly one front. -/
theorem claim_C3_nonDominatedSort_fronts (pop : List Objectives) :
    ((nonDominatedSortIdx pop).flatten.Nodup ∧
      (∀ j, j ∈ (nonDominatedSortIdx pop).flatten ↔ j < pop.length)) ∧
    (nonDominatedSortIdx pop).headD [] = frontZero pop.length (popDom pop) ∧
    (∀ fr ∈ nonDominatedSortIdx pop, fr ≠ []) ∧
    (∀ k j, j ∈ (nonDominatedSortIdx pop).getD k [] ↔
      (j < pop.length ∧ j ∉ ((nonDominatedSortIdx pop).take k).flatten ∧
        ∀ i, i < pop.length → popDom pop i j = true →
          i ∈ ((nonDominatedSortIdx pop).take k).flatten)) := by
  obtain ⟨hnd, hmem, hne, hchar⟩ := nonDominatedSortIdx_spec pop
  refine ⟨⟨hnd, fun j => by rw [hmem j, Finset.mem_range]⟩,
    nonDominatedSortIdx_head pop, hne, ?_⟩
  intro k j
  rw [hchar k j]
  constructor
  · rintro ⟨h1, h2, h3⟩
    exact ⟨Finset.mem_range.1 h1, h2,
      fun i hi hd => h3 i (Finset.mem_range.2 hi) hd⟩
  · rintro ⟨h1, h2, h3⟩
    exact ⟨Finset.mem_range.2 h1, h2,
      fun i hi hd => h3 i (Finset.mem_range.1 hi) hd⟩

/-- Witness for C3 at a concrete three-candidate population with two
fronts: the fronts are duplicate-free and cover candidate 1. -/
theorem claim_C3_witness :
    (nonDominatedSortIdx [⟨1, 1, 1⟩, ⟨2, 2, 2⟩, ⟨0, 3, 0⟩]).flatten.Nodup ∧
      1 ∈ (nonDominatedSortIdx [⟨1, 1, 1⟩, ⟨2, 2, 2⟩, ⟨0, 3, 0⟩]).flatten := by
  refine ⟨(claim_C3_nonDominatedSort_fronts [⟨1, 1, 1⟩, ⟨2, 2, 2⟩, ⟨0, 3, 0⟩]).1.1, ?_⟩
  exact ((claim_C3_nonDominatedSort_fronts [⟨1, 1, 1⟩, ⟨2, 2, 2⟩, ⟨0, 3, 0⟩]).1.2 1).2
    (by simp)

/-! ## Selection lemmas -/

theorem selGo_error_of_sum_le (fronts : List (List Individual)) :
    ∀ acc, acc.length + (fronts.map List.length).sum ≤ populationSize →
      selGo acc fronts = Except.error SelectError.typeError := by
  induction fronts with
  | nil => intro acc h; rfl
  | cons f rest ih =>
    intro acc h
    rw [selGo]
    rw [List.map_cons, List.sum_cons] at h
    rw [if_pos (by omega)]
    apply ih
    rw [List.length_append]
    omega

/-- The success side of selection: whenever the fronts hold more members
than remain to be taken — which the unguarded loop condition reaches
before running out of fronts — selection returns exactly
`populationSize` survivors.  Together with `selGo_error_of_sum_le` this
shows the code fails precisely when the fronts are exhausted with their
total at most `populationSize`, including an exact partition. -/
theorem selGo_ok_of_overflow (fronts : List (List Individual)) :
    ∀ acc, acc.length ≤ populationSize →
      populationSize < acc.length + (fronts.map List.length).sum →
      ∃ sel, selGo acc fronts = Except.ok sel ∧ sel.length = populationSize := by
  induction fronts with
  | nil =>
    intro acc hle hlt
    simp only [List.map_nil, List.sum_nil] at hlt
    omega
  | cons f rest ih =>
    intro acc hle hlt
    rw [List.map_cons, List.sum_cons] at hlt
    rw [selGo]
    by_cases hfit : acc.length + f.length ≤ populationSize
    · rw [if_pos hfit]
      apply ih
      · rw [List.length_append]
        omega
      · rw [List.length_append]
        omega
    · rw [if_neg hfit]
      by_cases hlt2 : acc.length < populationSize
      · rw [if_pos hlt2]
        refine ⟨_, rfl, ?_⟩
        rw [List.length_append, List.length_take, sortByCrowdingDesc,
          List.length_mergeSort]
        omega
      · rw [if_neg hlt2]
        exact ⟨acc, rfl, by omega⟩

/-- C1 (code_bug).  The failing evaluation: a fronts list that partitions
a population of size exactly `populationSize = 100` — one whole front of
100 candidates — makes `selectNextGeneration` run past the end of the
fronts array (`fronts[1].length` in the source throws a `TypeError`)
instead of returning the 100 survivors. -/
theorem claim_C1_select_crashes_on_exact_partition :
    selectNextGeneration [List.replicate 100 (freshIndividual [])] =
      Except.error SelectError.typeError := by
  apply selGo_error_of_sum_le
  simp [populationSize]

/-! ## The driver always fails in generation 0 -/

theorem crowdingPass_length (proj : Objectives → ℚ) (fr : List Individual) :
    (crowdingPass proj fr).length = fr.length := by
  simp [crowdingPass]

theorem calculateCrowdingDistance_length (front : List Individual) :
    (calculateCrowdingDistance front).length = front.length := by
  rw [calculateCrowdingDistance]
  by_cases h : front.length ≤ 2
  · rw [if_pos h, List.length_map]
  · rw [if_neg h, crowdingPass_length, crowdingPass_length, crowdingPass_length,
      List.length_map]

theorem nonDominatedSort_sum_lengths (pop : List Individual) :
    ((nonDominatedSort pop).map List.length).sum = pop.length := by
  rw [nonDominatedSort, List.map_map]
  have : (List.length ∘ fun front : List ℕ =>
      front.map (fun i => pop.getD i default)) = List.length := by
    funext fr
    simp
  rw [this, ← List.length_flatten, nonDominatedSortIdx_flatten_length,
    List.length_map]

/-- Any population of exactly 100 candidates makes the evaluate → rank →
crowd → select chain of one generation cycle fail: the non-empty fronts
partition the evaluated population, so their sizes sum to exactly
`populationSize` and `selGo` exhausts them. -/
theorem generation_select_error (pop : List Individual)
    (d : List PassengerDemand) (hlen : pop.length = 100) :
    selectNextGeneration ((nonDominatedSort (pop.map (fun ind =>
        { ind with objectives := evaluateObjectives ind.schedule d }))).map
      calculateCrowdingDistance) = Except.error SelectError.typeError := by
  apply selGo_error_of_sum_le
  rw [List.length_nil, List.map_map]
  have : (List.length ∘ calculateCrowdingDistance) =
      (List.length : List Individual → ℕ) := by
    funext fr
    exact calculateCrowdingDistance_length fr
  rw [this, nonDominatedSort_sum_lengths, List.length_map, hlen]
  simp [populationSize]

theorem genLoop_error (d : List PassengerDemand) (rand : ℕ → ℚ) (g : ℕ)
    (pop : List Individual) (k : ℕ) (hlen : pop.length = 100) :
    genLoop d rand (g + 1) pop k = Except.error SelectError.typeError := by
  rw [genLoop]
  rw [generation_select_error pop d hlen]

theorem initializePopulationCore_length (n L : ℤ) (rand : ℕ → ℚ) (k : ℕ) :
    (initializePopulationCore n L rand k).length = n.toNat := by
  simp [initializePopulationCore]

/-- Every run of the optimizer fails with the selection `TypeError` during
generation 0: the initial population has exactly 100 members, the fronts
of any 100-member population sum to 100, and the selection loop then
reads past the end of the fronts array. -/
theorem optimizeSchedules_errors (g : GTFSData) (d : List PassengerDemand)
    (rand : ℕ → ℚ) :
    optimizeSchedules g d rand = Except.error SelectError.typeError := by
  have hlen : (initializePopulation g rand 0).length = 100 := by
    rw [initializePopulation]
    rw [initializePopulationCore_length 100 24 rand 0]
    rfl
  have hloop : genLoop d rand generations (initializePopulation g rand 0) 2400 =
      Except.error SelectError.typeError := by
    have hgen : generations = 49 + 1 := rfl
    rw [hgen]
    exact genLoop_error d rand 49 _ 2400 hlen
  rw [optimizeSchedules, hloop]
  rfl

/-- C8 (corrected, amended claim): with the ambient unseeded `Math.random`
modelled as an explicit draw stream, the optimizer is a pure function of
(inputs, configuration, stream) — two runs with identical inputs and
identical streams return identical results — but no run ever produces
output schedules: every run fails with the generation-0 selection
`TypeError`, and the source offers no random-seed parameter at all. -/
theorem claim_C8_determinism_relative_to_stream :
    (∀ (g : GTFSData) (d : List PassengerDemand) (r1 r2 : ℕ → ℚ),
      (∀ i, r1 i = r2 i) → optimizeSchedules g d r1 = optimizeSchedules g d r2) ∧
    (∀ (g : GTFSData) (d : List PassengerDemand) (r : ℕ → ℚ),
      optimizeSchedules g d r = Except.error SelectError.typeError) := by
  constructor
  · intro g d r1 r2 h
    rw [funext h]
  · exact optimizeSchedules_errors

/-- C8 counterexample: a concrete run with fixed inputs and a fixed draw
stream returns the selection `TypeError` — the optimizer never produces
the output schedules whose byte-identity the claim asserts. -/
theorem claim_C8_counterexample :
    optimizeSchedules ⟨[⟨"route1"⟩]⟩ [] (fun _ => 0) =
      Except.error SelectError.typeError :=
  optimizeSchedules_errors ⟨[⟨"route1"⟩]⟩ [] (fun _ => 0)

/-- Witness for C8's amended theorem at concrete inputs and streams. -/
theorem claim_C8_witness :
    optimizeSchedules ⟨[]⟩ [] (fun _ => 1 / 2) =
        optimizeSchedules ⟨[]⟩ [] (fun _ => 1 / 2) ∧
      optimizeSchedules ⟨[]⟩ [] (fun _ => 1 / 2) =
        Except.error SelectError.typeError :=
  ⟨claim_C8_determinism_relative_to_stream.1 ⟨[]⟩ [] _ _ (fun _ => rfl),
    claim_C8_determinism_relative_to_stream.2 ⟨[]⟩ [] _⟩

/-! ## The falsy-zero wait-time defect (C2) -/

/-- C2 (code_bug): demand at `"00:00"` against a schedule whose earliest
at-or-after departure is minute 0 is charged a wait of 1440 (a full-day
wrap), not 0: `schedule.find(...) || schedule[0] + 1440` treats the found
departure `0` as falsy and takes the next-day fallback. -/
theorem claim_C2_midnight_wait_wraps :
    (evaluateObjectives hourlySchedule
      [⟨"stop1", "00:00", 1, 1⟩]).passengerWaitTime = 1440 := by
  have ht : timeToMinutes "00:00" = 0 := by
    have h1 : splitOnColon "00:00".data = [['0', '0'], ['0', '0']] := rfl
    have h2 : digitsVal ['0', '0'] = 0 := by decide
    rw [timeToMinutes, h1]
    simp [h2]
  have hnext : nextBusFor hourlySchedule 0 = 1440 := by
    have hfind : hourlySchedule.find? (fun busTime => decide ((0 : ℚ) ≤ busTime)) =
        some 0 := by
      rw [hourlySchedule, List.find?_cons_of_pos]
      norm_num
    rw [nextBusFor, hfind]
    norm_num [hourlySchedule]
  simp only [evaluateObjectives, List.foldl_cons, List.foldl_nil, ht, hnext]
  norm_num

/-! ## Crowding distance properties (C4) -/

theorem sorted_mergeSort_proj (proj : Objectives → ℚ) (fr : List Individual) :
    (fr.mergeSort (fun a b => decide (proj a.objectives ≤ proj b.objectives))).Pairwise
      (fun a b => proj a.objectives ≤ proj b.objectives) := by
  have htrans : ∀ a b c : Individual,
      decide (proj a.objectives ≤ proj b.objectives) = true →
      decide (proj b.objectives ≤ proj c.objectives) = true →
      decide (proj a.objectives ≤ proj c.objectives) = true := by
    intro a b c hab hbc
    simp only [decide_eq_true_eq] at hab hbc ⊢
    exact le_trans hab hbc
  have htotal : ∀ a b : Individual,
      (decide (proj a.objectives ≤ proj b.objectives) ||
        decide (proj b.objectives ≤ proj a.objectives)) = true := by
    intro a b
    simp only [Bool.or_eq_true, decide_eq_true_eq]
    exact le_total _ _
  have h := List.sorted_mergeSort htrans htotal fr
  exact h.imp (fun hab => by simpa using hab)

theorem pairwise_getD_le (proj : Objectives → ℚ) (l : List Individual)
    (hl : l.Pairwise (fun a b => proj a.objectives ≤ proj b.objectives))
    {i j : ℕ} (hij : i < j) (hj : j < l.length) :
    proj (l.getD i default).objectives ≤ proj (l.getD j default).objectives := by
  have hi : i < l.length := lt_trans hij hj
  rw [List.getD_eq_getElem l default hi, List.getD_eq_getElem l default hj]
  exact List.pairwise_iff_get.1 hl ⟨i, hi⟩ ⟨j, hj⟩ hij

theorem crowdingPass_nonneg (proj : Objectives → ℚ) (fr : List Individual)
    (h : ∀ x ∈ fr, 0 ≤ x.crowdingDistance) :
    ∀ x ∈ crowdingPass proj fr, 0 ≤ x.crowdingDistance := by
  intro x hx
  rw [crowdingPass] at hx
  simp only [List.mem_map, List.mem_range] at hx
  obtain ⟨i, hi, hxeq⟩ := hx
  subst hxeq
  set sorted := fr.mergeSort (fun a b => decide (proj a.objectives ≤ proj b.objectives))
    with hsorted
  have hmem : sorted.getD i default ∈ fr := by
    rw [List.getD_eq_getElem sorted default hi]
    exact List.mem_mergeSort.1 (List.getElem_mem hi)
  by_cases hb : i = 0 ∨ i = sorted.length - 1
  · simp only [if_pos hb]
    exact le_top
  · simp only [if_neg hb]
    push_neg at hb
    obtain ⟨hb0, hbl⟩ := hb
    by_cases hr : 0 < proj (sorted.getLastD default).objectives -
        proj (sorted.headD default).objectives
    · simp only [if_pos hr]
      apply add_nonneg (h _ hmem)
      have hi1 : i + 1 < sorted.length := by omega
      have hle : proj (sorted.getD (i - 1) default).objectives ≤
          proj (sorted.getD (i + 1) default).objectives := by
        apply pairwise_getD_le proj sorted (sorted_mergeSort_proj proj fr)
        · omega
        · exact hi1
      have hq : (0 : ℚ) ≤ (proj (sorted.getD (i + 1) default).objectives -
          proj (sorted.getD (i - 1) default).objectives) /
            (proj (sorted.getLastD default).objectives -
              proj (sorted.headD default).objectives) :=
        div_nonneg (by linarith) (le_of_lt hr)
      exact_mod_cast hq
    · simp only [if_neg hr]
      exact h _ hmem

theorem calculateCrowdingDistance_nonneg (front : List Individual) :
    ∀ x ∈ calculateCrowdingDistance front, 0 ≤ x.crowdingDistance := by
  rw [calculateCrowdingDistance]
  by_cases h : front.length ≤ 2
  · rw [if_pos h]
    intro x hx
    rcases List.mem_map.1 hx with ⟨y, -, hy⟩
    subst hy
    exact le_top
  · rw [if_neg h]
    apply crowdingPass_nonneg
    apply crowdingPass_nonneg
    apply crowdingPass_nonneg
    intro x hx
    rcases List.mem_map.1 hx with ⟨y, -, hy⟩
    subst hy
    exact le_refl _

theorem crowdingPass_boundary (proj : Objectives → ℚ) (fr : List Individual)
    (h : fr ≠ []) :
    ((crowdingPass proj fr).getD 0 default).crowdingDistance = ⊤ ∧
      ((crowdingPass proj fr).getD ((crowdingPass proj fr).length - 1)
        default).crowdingDistance = ⊤ := by
  have hlen : (crowdingPass proj fr).length = fr.length := crowdingPass_length proj fr
  have hpos : 0 < fr.length := List.length_pos.2 h
  rw [hlen]
  constructor
  · rw [crowdingPass]
    rw [List.getD_eq_getElem?_getD, List.getElem?_map,
      List.getElem?_range (by simp [hpos])]
    simp
  · rw [crowdingPass]
    rw [List.getD_eq_getElem?_getD, List.getElem?_map,
      List.getElem?_range (by simp; omega)]
    simp

/-- C4 (confirmed).  Crowding distance: a front of at most two members is
entirely assigned `Infinity`; a larger front has its two boundary members
(after the per-objective sort; shown here for the final, third objective
pass, whose assignments survive to the returned front) set to `Infinity`;
and every member's final crowding distance is non-negative or infinite,
because each interior contribution `(objective[i+1] − objective[i−1]) /
(max − min)` is non-negative on a sorted front and is skipped when
`max = min`. -/
theorem claim_C4_crowding_distance (front : List Individual) :
    (front.length ≤ 2 →
      ∀ x ∈ calculateCrowdingDistance front, x.crowdingDistance = ⊤) ∧
    (2 < front.length →
      ((calculateCrowdingDistance front).getD 0 default).crowdingDistance = ⊤ ∧
      ((calculateCrowdingDistance front).getD
        ((calculateCrowdingDistance front).length - 1) default).crowdingDistance = ⊤) ∧
    (∀ x ∈ calculateCrowdingDistance front, 0 ≤ x.crowdingDistance) := by
  refine ⟨?_, ?_, calculateCrowdingDistance_nonneg front⟩
  · intro h x hx
    rw [calculateCrowdingDistance, if_pos h] at hx
    rcases List.mem_map.1 hx with ⟨y, -, hy⟩
    subst hy
    rfl
  · intro h
    rw [calculateCrowdingDistance, if_neg (by omega)]
    apply crowdingPass_boundary
    intro hempty
    have h1 := crowdingPass_length (fun o => o.passengerWaitTime)
      (crowdingPass (fun o => o.operatorCost)
        (front.map (fun ind => { ind with crowdingDistance := 0 })))
    have h2 := crowdingPass_length (fun o => o.operatorCost)
      (front.map (fun ind => { ind with crowdingDistance := 0 }))
    rw [hempty] at h1
    simp only [List.length_nil, List.length_map] at h1 h2
    omega

/-- Witness for C4 at a concrete four-member front: the first returned
member carries infinite distance; the second carries a non-negative one. -/
theorem claim_C4_witness :
    ((calculateCrowdingDistance
        [⟨[], ⟨1, 4, 0⟩, 0⟩, ⟨[], ⟨2, 3, 0⟩, 0⟩, ⟨[], ⟨3, 2, 0⟩, 0⟩,
          ⟨[], ⟨4, 1, 0⟩, 0⟩]).getD 0 default).crowdingDistance = ⊤ ∧
      0 ≤ ((calculateCrowdingDistance
        [⟨[], ⟨1, 4, 0⟩, 0⟩, ⟨[], ⟨2, 3, 0⟩, 0⟩, ⟨[], ⟨3, 2, 0⟩, 0⟩,
          ⟨[], ⟨4, 1, 0⟩, 0⟩]).getD 1 default).crowdingDistance := by
  have hc := claim_C4_crowding_distance
    [⟨[], ⟨1, 4, 0⟩, 0⟩, ⟨[], ⟨2, 3, 0⟩, 0⟩, ⟨[], ⟨3, 2, 0⟩, 0⟩, ⟨[], ⟨4, 1, 0⟩, 0⟩]
  refine ⟨(hc.2.1 (by simp)).1, ?_⟩
  apply hc.2.2
  have hlen : (calculateCrowdingDistance
      [⟨[], ⟨1, 4, 0⟩, 0⟩, ⟨[], ⟨2, 3, 0⟩, 0⟩, ⟨[], ⟨3, 2, 0⟩, 0⟩,
        ⟨[], ⟨4, 1, 0⟩, 0⟩]).length = 4 := by
    rw [calculateCrowdingDistance_length]
    rfl
  rw [List.getD_eq_getElem _ default (by omega)]
  exact List.getElem_mem _

/-! ## Variation operators preserve the schedule invariants (C5) -/

theorem sortAsc_length (s : List ℚ) : (sortAsc s).length = s.length :=
  List.length_mergeSort s

theorem sortAsc_sorted (s : List ℚ) : (sortAsc s).Sorted (· ≤ ·) := by
  have htrans : ∀ a b c : ℚ, decide (a ≤ b) = true → decide (b ≤ c) = true →
      decide (a ≤ c) = true := by
    intro a b c hab hbc
    simp only [decide_eq_true_eq] at hab hbc ⊢
    exact le_trans hab hbc
  have htotal : ∀ a b : ℚ, (decide (a ≤ b) || decide (b ≤ a)) = true := by
    intro a b
    simp only [Bool.or_eq_true, decide_eq_true_eq]
    exact le_total a b
  have h := List.sorted_mergeSort htrans htotal s
  exact h.imp (fun hab => by simpa using hab)

/-- C5 (confirmed).  Both crossover offspring of two length-`L` parents
have length-`L` schedules sorted ascending (for any cut index), and
mutation of a length-`L` schedule yields a length-`L` schedule sorted
ascending. -/
theorem claim_C5_variation_preserves_invariants (L : ℕ) (p1 p2 : List ℚ)
    (cut : ℕ) (h1 : p1.length = L) (h2 : p2.length = L) :
    ((crossoverSchedules p1 p2 cut).1.length = L ∧
      (crossoverSchedules p1 p2 cut).1.Sorted (· ≤ ·) ∧
      (crossoverSchedules p1 p2 cut).2.length = L ∧
      (crossoverSchedules p1 p2 cut).2.Sorted (· ≤ ·)) ∧
    ∀ (s : List ℚ) (idx : ℕ) (v : ℚ), s.length = L →
      ((mutateAt s idx v).length = L ∧ (mutateAt s idx v).Sorted (· ≤ ·)) := by
  constructor
  · refine ⟨?_, sortAsc_sorted _, ?_, sortAsc_sorted _⟩
    · rw [crossoverSchedules]
      rw [sortAsc_length, List.length_append, List.length_take, List.length_drop,
        h1, h2]
      omega
    · rw [crossoverSchedules]
      rw [sortAsc_length, List.length_append, List.length_take, List.length_drop,
        h1, h2]
      omega
  · intro s idx v hs
    refine ⟨?_, sortAsc_sorted _⟩
    rw [mutateAt, sortAsc_length, List.length_set, hs]

/-- Witness for C5 at concrete parents, cut index and mutation. -/
theorem claim_C5_witness :
    ((crossoverSchedules [(0 : ℚ), 3] [(1 : ℚ), 2] 1).1.length = 2 ∧
      (crossoverSchedules [(0 : ℚ), 3] [(1 : ℚ), 2] 1).1.Sorted (· ≤ ·)) ∧
    ((mutateAt [(0 : ℚ), 3] 0 5).length = 2 ∧
      (mutateAt [(0 : ℚ), 3] 0 5).Sorted (· ≤ ·)) := by
  have h := claim_C5_variation_preserves_invariants 2 [(0 : ℚ), 3] [(1 : ℚ), 2] 1
    rfl rfl
  exact ⟨⟨h.1.1, h.1.2.1⟩, h.2 [(0 : ℚ), 3] 0 5 rfl⟩

/-! ## Offspring are appended, not trimmed (C6) -/

theorem mutationPhase_length (rand : ℕ → ℚ) :
    ∀ (pop : List Individual) (k : ℕ),
      (mutationPhase rand pop k).1.length = pop.length := by
  intro pop
  induction pop with
  | nil => intro k; rfl
  | cons ind rest ih =>
    intro k
    rw [mutationPhase]
    by_cases h : rand k < mutationRate
    · rw [if_pos h]
      simp [ih]
    · rw [if_neg h]
      simp [ih]

/-- The working population handed back by the genetic operators is the
survivor list plus all crossover children: it never shrinks below the
survivor count, and exceeds it by the (even) number of appended
offspring. -/
theorem applyGeneticOperators_length (population : List Individual)
    (rand : ℕ → ℚ) (k : ℕ) :
    ((applyGeneticOperators population rand k).1).length =
      population.length + (crossoverPhase rand population k).1.length := by
  rw [applyGeneticOperators, mutationPhase_length, List.length_append]

/-- C6 (code_bug).  `applyGeneticOperators` copies the survivors and then
appends two offspring per crossed pair: from 2 survivors with the
crossover decision drawn true, the population handed to the next
generation's Evaluating step has 4 members, not the survivor count. -/
theorem claim_C6_offspring_not_trimmed :
    ((applyGeneticOperators [freshIndividual (List.replicate 24 0),
        freshIndividual (List.replicate 24 1)] (fun _ => 0) 0).1).length = 4 := by
  rw [applyGeneticOperators, mutationPhase_length, List.length_append]
  have hcp : (crossoverPhase (fun _ => 0) [freshIndividual (List.replicate 24 0),
      freshIndividual (List.replicate 24 1)] 0).1.length = 2 := by
    rw [crossoverPhase]
    rw [if_pos (show (fun _ : ℕ => (0 : ℚ)) 0 < crossoverRate by
      norm_num [crossoverRate])]
    rfl
  rw [hcp]
  rfl

/-! ## Initialization performs no validation (C7) -/

theorem randomSchedule_length (L : ℕ) (rand : ℕ → ℚ) (off : ℕ) :
    (randomSchedule L rand off).length = L := by
  rw [randomSchedule, sortAsc_length, List.length_map, List.length_range]

/-- C7 counterexample: initialization with a non-positive population size
does not fail with a ConfigurationError — no error path exists in the
source — it simply returns the empty population. -/
theorem claim_C7_counterexample :
    initializePopulationCore (-3) 24 (fun _ => 0) 0 = [] := rfl

/-- C7 (corrected, amended claim): initialization never fails and
validates nothing; it returns `max n 0` candidates (empty for
non-positive `n`), each with `max L 0` departure times drawn from the
stream scaled into the operating window, sorted ascending, with zeroed
objective vector and crowding distance. -/
theorem claim_C7_initialization_never_fails (n L : ℤ) (rand : ℕ → ℚ) (k : ℕ) :
    (initializePopulationCore n L rand k).length = n.toNat ∧
    ∀ ind ∈ initializePopulationCore n L rand k,
      ind.schedule.length = L.toNat ∧ ind.schedule.Sorted (· ≤ ·) ∧
      ind.objectives = ⟨0, 0, 0⟩ ∧ ind.crowdingDistance = 0 ∧
      ((∀ i, 0 ≤ rand i ∧ rand i < 1) →
        ∀ t ∈ ind.schedule, 0 ≤ t ∧ t < 1440) := by
  refine ⟨initializePopulationCore_length n L rand k, ?_⟩
  intro ind hind
  rw [initializePopulationCore] at hind
  rcases List.mem_map.1 hind with ⟨i, -, hi⟩
  subst hi
  refine ⟨randomSchedule_length _ _ _, ?_, rfl, rfl, ?_⟩
  · exact sortAsc_sorted _
  · intro hr t ht
    rw [freshIndividual] at ht
    simp only [randomSchedule, sortAsc] at ht
    rw [List.mem_mergeSort] at ht
    rcases List.mem_map.1 ht with ⟨j, -, hj⟩
    subst hj
    rcases hr (k + L.toNat * i + j) with ⟨h0, h1⟩
    constructor
    · positivity
    · have h2 : rand (k + L.toNat * i + j) * 1440 < 1 * 1440 :=
        mul_lt_mul_of_pos_right h1 (by norm_num)
      linarith

/-- Witness for C7's amended theorem at a concrete configuration. -/
theorem claim_C7_witness :
    (initializePopulationCore 2 3 (fun _ => 1 / 2) 0).length = 2 ∧
      ((initializePopulationCore 2 3 (fun _ => 1 / 2) 0).getD 0
        default).schedule.length = 3 := by
  have h := claim_C7_initialization_never_fails 2 3 (fun _ => 1 / 2) 0
  refine ⟨h.1, ?_⟩
  have hmem : (initializePopulationCore 2 3 (fun _ => 1 / 2) 0).getD 0 default ∈
      initializePopulationCore 2 3 (fun _ => 1 / 2) 0 := by
    have hlen : (initializePopulationCore 2 3 (fun _ => 1 / 2) 0).length = 2 := h.1
    rw [List.getD_eq_getElem _ default (by omega)]
    exact List.getElem_mem _
  exact (h.2 _ hmem).1

/-! ## Result metrics are hard-coded (C9) -/

theorem convert_metrics_const (front : List Individual) (g : GTFSData) :
    ∀ r ∈ convertToOptimizedSchedules front g,
      r.performance_metrics = ⟨18, 21, 15⟩ := by
  intro r hr
  rcases List.mem_map.1 hr with ⟨p, -, hp⟩
  subst hp
  rfl

/-- C9 (corrected, amended claim): the performance-metrics summary of
every produced `ScheduleResult` is the hard-coded constant block
`{wait_time_reduction: 18, utilization_increase: 21, cost_savings: 15}`,
independent of routes, demand, baseline, or the Pareto front. -/
theorem claim_C9_metrics_hardcoded (front : List Individual) (g : GTFSData) :
    ∀ r ∈ convertToOptimizedSchedules front g,
      r.performance_metrics = ⟨18, 21, 15⟩ :=
  convert_metrics_const front g

/-- C9 counterexample: there is no pair of inputs on which the projector
produces different metric values — refuting the claim that the metrics
are computed against a caller-supplied baseline. -/
theorem claim_C9_counterexample :
    ¬ ∃ (f1 : List Individual) (g1 : GTFSData) (f2 : List Individual)
      (g2 : GTFSData) (r1 r2 : OptimizedSchedule),
        r1 ∈ convertToOptimizedSchedules f1 g1 ∧
        r2 ∈ convertToOptimizedSchedules f2 g2 ∧
        r1.performance_metrics ≠ r2.performance_metrics := by
  rintro ⟨f1, g1, f2, g2, r1, r2, h1, h2, hne⟩
  exact hne ((convert_metrics_const f1 g1 r1 h1).trans
    (convert_metrics_const f2 g2 r2 h2).symm)

/-- Witness for C9's amended theorem at a concrete route set. -/
theorem claim_C9_witness :
    ((convertToOptimizedSchedules [freshIndividual []] ⟨[⟨"route1"⟩]⟩).getD 0
      default).performance_metrics = ⟨18, 21, 15⟩ := by
  apply claim_C9_metrics_hardcoded [freshIndividual []] ⟨[⟨"route1"⟩]⟩
  have hlen : (convertToOptimizedSchedules [freshIndividual []] ⟨[⟨"route1"⟩]⟩).length = 1 := by
    rw [convertToOptimizedSchedules]
    rw [List.length_map]
    rfl
  rw [List.getD_eq_getElem _ default (by omega)]
  exact List.getElem_mem _

/-! ## The vehicle-utilization objective is constant (C10) -/

theorem mutateAt_length (s : List ℚ) (idx : ℕ) (v : ℚ) :
    (mutateAt s idx v).length = s.length := by
  rw [mutateAt, sortAsc_length, List.length_set]

theorem crossoverSchedules_fst_length (p1 p2 : List ℚ) (cut : ℕ)
    (h : p1.length = p2.length) :
    (crossoverSchedules p1 p2 cut).1.length = p1.length := by
  rw [crossoverSchedules, sortAsc_length, List.length_append, List.length_take,
    List.length_drop, h]
  omega

/-- C10 (confirmed, implicit claim).  Every candidate built by
initialization, crossover or mutation has the hard-coded schedule length
24; every length-24 schedule evaluates to vehicleUtilization
`1 − min((24·60)/(16·60), 1) = 0`; and whenever two candidates agree on
vehicleUtilization, the dominance test coincides with the test computed
from the other two objectives alone — the utilization objective never
decides dominance in any reachable population. -/
theorem claim_C10_utilization_never_contributes :
    (∀ (g : GTFSData) (rand : ℕ → ℚ) (k : ℕ),
      ∀ ind ∈ initializePopulation g rand k, ind.schedule.length = 24) ∧
    (∀ (p1 p2 : List ℚ) (cut : ℕ), p1.length = 24 → p2.length = 24 →
      (crossoverSchedules p1 p2 cut).1.length = 24 ∧
      (crossoverSchedules p1 p2 cut).2.length = 24) ∧
    (∀ (s : List ℚ) (idx : ℕ) (v : ℚ), s.length = 24 →
      (mutateAt s idx v).length = 24) ∧
    (∀ (s : List ℚ) (d : List PassengerDemand), s.length = 24 →
      (evaluateObjectives s d).vehicleUtilization = 0) ∧
    (∀ a b : Objectives, a.vehicleUtilization = b.vehicleUtilization →
      dominates a b = dominatesIgnoringUtilization a b) := by
  refine ⟨?_, ?_, ?_, ?_, ?_⟩
  · intro g rand k ind hind
    rw [initializePopulation, initializePopulationCore] at hind
    rcases List.mem_map.1 hind with ⟨i, -, hi⟩
    subst hi
    rw [freshIndividual]
    exact randomSchedule_length _ _ _
  · intro p1 p2 cut h1 h2
    constructor
    · rw [crossoverSchedules_fst_length p1 p2 cut (h1.trans h2.symm), h1]
    · have hswap : (crossoverSchedules p1 p2 cut).2 =
          (crossoverSchedules p2 p1 cut).1 := rfl
      rw [hswap, crossoverSchedules_fst_length p2 p1 cut (h2.trans h1.symm), h2]
  · intro s idx v hs
    rw [mutateAt_length, hs]
  · intro s d hs
    rw [evaluateObjectives]
    simp only [hs]
    norm_num
  · intro a b h
    rw [dominates_eq, dominatesIgnoringUtilization, h]
    simp

/-- Witness for C10 at a concrete schedule and objective pair. -/
theorem claim_C10_witness :
    (evaluateObjectives (List.replicate 24 0) []).vehicleUtilization = 0 ∧
      dominates ⟨1, 2, 5⟩ ⟨3, 4, 5⟩ = dominatesIgnoringUtilization ⟨1, 2, 5⟩ ⟨3, 4, 5⟩ :=
  ⟨claim_C10_utilization_never_contributes.2.2.2.1 (List.replicate 24 0) []
      (List.length_replicate 24 0),
    claim_C10_utilization_never_contributes.2.2.2.2 ⟨1, 2, 5⟩ ⟨3, 4, 5⟩ rfl⟩
